import Mathlib

/-!
Verification of the `ai-code-reviewer` GitHub Action (`src/main.ts`).

The development shallowly embeds the program's logic: external collaborators
(the GitHub REST client, the Anthropic chat endpoint, the `pylint` subprocess,
the `glob` file scan) are modelled as explicit inputs, and the JavaScript
standard-library routines the source leans on (`JSON.parse`, `JSON.stringify`,
`String.prototype.replace`, `Number`, `String.prototype.split/trim`,
`minimatch`) are given executable Lean models faithful to their observable
semantics on the values this program feeds them.  JSON numbers carry their
source lexeme (exact decimal text) rather than an IEEE double; numeric
coercions are computed over exact rationals.
-/

namespace AiCodeReviewer

/-- JavaScript JSON value as produced by `JSON.parse`: numbers keep their
source lexeme, objects keep their key/value pairs in source order (duplicate
keys allowed; property lookup takes the last occurrence, as in JS). -/
inductive Json where
  | null : Json
  | bool (b : Bool) : Json
  | num (tok : String) : Json
  | str (s : String) : Json
  | arr (items : List Json) : Json
  | obj (fields : List (String × Json)) : Json

/-- JSON insignificant whitespace: space, tab, line feed, carriage return. -/
def isJsonWs (c : Char) : Bool :=
  c = ' ' || c = '\t' || c = '\n' || c = '\r'

/-- Drop leading JSON whitespace. -/
def skipWs : List Char → List Char
  | [] => []
  | c :: cs => if isJsonWs c then skipWs cs else c :: cs

/-- Value of a single hexadecimal digit, if it is one. -/
def hexVal (c : Char) : Option Nat :=
  if '0' ≤ c ∧ c ≤ '9' then some (c.toNat - 48)
  else if 'a' ≤ c ∧ c ≤ 'f' then some (c.toNat - 87)
  else if 'A' ≤ c ∧ c ≤ 'F' then some (c.toNat - 55)
  else none

/-- Value of a four-hex-digit escape `\uXXXX`. -/
def hex4 (h1 h2 h3 h4 : Char) : Option Nat := do
  let a ← hexVal h1
  let b ← hexVal h2
  let c ← hexVal h3
  let d ← hexVal h4
  pure (a * 4096 + b * 256 + c * 16 + d)

/-- Single-character JSON string escapes. -/
def escMap (c : Char) : Option Char :=
  if c = '"' then some '"'
  else if c = '\\' then some '\\'
  else if c = '/' then some '/'
  else if c = 'b' then some '\x08'
  else if c = 'f' then some '\x0c'
  else if c = 'n' then some '\n'
  else if c = 'r' then some '\r'
  else if c = 't' then some '\t'
  else none

/-- Parse the body of a JSON string (after the opening quote), returning the
decoded characters and the input remaining after the closing quote.  Raw
control characters below U+0020 are rejected, as `JSON.parse` does.  A
`\uXXXX` high-surrogate escape immediately followed by a low-surrogate escape
decodes to the combined scalar; a lone surrogate escape (not representable as
a Lean character) decodes to U+FFFD. -/
def parseStrAux : Nat → List Char → Option (List Char × List Char)
  | 0, _ => none
  | _, [] => none
  | fuel + 1, c :: rest =>
    if c = '"' then some ([], rest)
    else if c = '\\' then
      match rest with
      | 'u' :: h1 :: h2 :: h3 :: h4 :: rs =>
        match hex4 h1 h2 h3 h4 with
        | none => none
        | some n =>
          if 0xD800 ≤ n ∧ n ≤ 0xDBFF then
            match rs with
            | '\\' :: 'u' :: g1 :: g2 :: g3 :: g4 :: rs2 =>
              match hex4 g1 g2 g3 g4 with
              | none => none
              | some m =>
                if 0xDC00 ≤ m ∧ m ≤ 0xDFFF then
                  (parseStrAux fuel rs2).map (fun p =>
                    (Char.ofNat (0x10000 + (n - 0xD800) * 0x400 + (m - 0xDC00)) :: p.1, p.2))
                else
                  (parseStrAux fuel rs).map (fun p => ('�' :: p.1, p.2))
            | _ => (parseStrAux fuel rs).map (fun p => ('�' :: p.1, p.2))
          else if 0xDC00 ≤ n ∧ n ≤ 0xDFFF then
            (parseStrAux fuel rs).map (fun p => ('�' :: p.1, p.2))
          else
            (parseStrAux fuel rs).map (fun p => (Char.ofNat n :: p.1, p.2))
      | e :: rs =>
        match escMap e with
        | some d => (parseStrAux fuel rs).map (fun p => (d :: p.1, p.2))
        | none => none
      | [] => none
    else if c.toNat < 0x20 then none
    else (parseStrAux fuel rest).map (fun p => (c :: p.1, p.2))

/-- Accumulated numeric value of a digit string. -/
def digitsToNat (ds : List Char) : Nat :=
  ds.foldl (fun a c => a * 10 + (c.toNat - 48)) 0

/-- Lex a JSON number token: optional minus, integer part (`0` or a nonzero
digit followed by digits), optional fraction, optional exponent.  Returns the
lexeme and the remaining input. -/
def lexNumber (cs : List Char) : Option (List Char × List Char) :=
  let (sign, cs1) : List Char × List Char :=
    match cs with
    | '-' :: r => (['-'], r)
    | _ => ([], cs)
  match cs1 with
  | [] => none
  | c :: r =>
    if c = '0' ∨ ¬ c.isDigit then
      if c = '0' then numFrac (sign ++ ['0']) r else none
    else
      let (ds, r2) := cs1.span Char.isDigit
      numFrac (sign ++ ds) r2
where
  /-- Optional fraction part, then exponent. -/
  numFrac (acc : List Char) (cs : List Char) : Option (List Char × List Char) :=
    match cs with
    | '.' :: r =>
      let (ds, r2) := r.span Char.isDigit
      if ds = [] then none else numExp (acc ++ ['.'] ++ ds) r2
    | _ => numExp acc cs
  /-- Optional exponent part. -/
  numExp (acc : List Char) (cs : List Char) : Option (List Char × List Char) :=
    match cs with
    | e :: r =>
      if e = 'e' ∨ e = 'E' then
        let (es, r2) : List Char × List Char :=
          match r with
          | '+' :: r2 => (['+'], r2)
          | '-' :: r2 => (['-'], r2)
          | _ => ([], r)
        let (ds, r3) := r2.span Char.isDigit
        if ds = [] then none else some (acc ++ [e] ++ es ++ ds, r3)
      else some (acc, cs)
    | [] => some (acc, [])

mutual

/-- Parse one JSON value at the head of the input (leading whitespace already
skipped), returning it and the remaining input.  `fuel` bounds bracket
nesting; the top-level entry point supplies enough for any input. -/
def parseValue : Nat → List Char → Option (Json × List Char)
  | 0, _ => none
  | fuel + 1, cs =>
    match cs with
    | [] => none
    | 'n' :: 'u' :: 'l' :: 'l' :: rest => some (Json.null, rest)
    | 't' :: 'r' :: 'u' :: 'e' :: rest => some (Json.bool true, rest)
    | 'f' :: 'a' :: 'l' :: 's' :: 'e' :: rest => some (Json.bool false, rest)
    | '"' :: rest =>
      (parseStrAux (rest.length + 1) rest).map
        (fun p => (Json.str (String.mk p.1), p.2))
    | '[' :: rest =>
      match skipWs rest with
      | ']' :: r2 => some (Json.arr [], r2)
      | r1 => (parseArrayItems fuel r1).map (fun p => (Json.arr p.1, p.2))
    | '{' :: rest =>
      match skipWs rest with
      | '}' :: r2 => some (Json.obj [], r2)
      | r1 => (parseObjItems fuel r1).map (fun p => (Json.obj p.1, p.2))
    | c :: _ =>
      if c = '-' ∨ c.isDigit then
        (lexNumber cs).map (fun p => (Json.num (String.mk p.1), p.2))
      else none

/-- Parse the comma-separated items of a JSON array (input positioned at the
first item, whitespace skipped), through the closing bracket. -/
def parseArrayItems : Nat → List Char → Option (List Json × List Char)
  | 0, _ => none
  | fuel + 1, cs =>
    match parseValue fuel cs with
    | none => none
    | some (v, r1) =>
      match skipWs r1 with
      | ']' :: r2 => some ([v], r2)
      | ',' :: r2 =>
        (parseArrayItems fuel (skipWs r2)).map (fun p => (v :: p.1, p.2))
      | _ => none

/-- Parse the comma-separated members of a JSON object (input positioned at
the first key, whitespace skipped), through the closing brace. -/
def parseObjItems : Nat → List Char → Option (List (String × Json) × List Char)
  | 0, _ => none
  | fuel + 1, cs =>
    match cs with
    | '"' :: ks =>
      match parseStrAux (ks.length + 1) ks with
      | none => none
      | some (keyChars, r1) =>
        match skipWs r1 with
        | ':' :: r2 =>
          match parseValue fuel (skipWs r2) with
          | none => none
          | some (v, r3) =>
            match skipWs r3 with
            | '}' :: r4 => some ([(String.mk keyChars, v)], r4)
            | ',' :: r4 =>
              (parseObjItems fuel (skipWs r4)).map
                (fun p => ((String.mk keyChars, v) :: p.1, p.2))
            | _ => none
        | _ => none
    | _ => none

end

/-- Model of `JSON.parse`: parse one value surrounded by optional whitespace;
any other remaining input is a syntax error (`none`). -/
def jsonParse (s : String) : Option Json :=
  match parseValue (2 * s.data.length + 2) (skipWs s.data) with
  | some (v, rest) => if skipWs rest = [] then some v else none
  | none => none

/-- Lower-case hexadecimal digit character for a value below 16. -/
def hexDigitChar (n : Nat) : Char :=
  if n < 10 then Char.ofNat (48 + n) else Char.ofNat (87 + n)

/-- Escape one character the way `JSON.stringify` serialises string contents:
quote and backslash get a backslash escape, the five short-escape control
characters use their short form, remaining control characters use `\u00XX`,
and everything else passes through unchanged. -/
def escapeChar (c : Char) : List Char :=
  if c = '"' then ['\\', '"']
  else if c = '\\' then ['\\', '\\']
  else if c = '\x08' then ['\\', 'b']
  else if c = '\x0c' then ['\\', 'f']
  else if c = '\n' then ['\\', 'n']
  else if c = '\r' then ['\\', 'r']
  else if c = '\t' then ['\\', 't']
  else if c.toNat < 0x20 then
    ['\\', 'u', '0', '0', hexDigitChar (c.toNat / 16), hexDigitChar (c.toNat % 16)]
  else [c]

/-- Serialisation of a string as a quoted JSON string literal. -/
def quoteStr (s : String) : String :=
  String.mk ('"' :: (s.data.map escapeChar).flatten ++ ['"'])

mutual

/-- Model of `JSON.stringify` on JSON values (no indentation argument, as in
the source): number lexemes are emitted verbatim. -/
def jsonStringify : Json → String
  | Json.null => "null"
  | Json.bool true => "true"
  | Json.bool false => "false"
  | Json.num tok => tok
  | Json.str s => quoteStr s
  | Json.arr items => "[" ++ jsonStringifyItems items ++ "]"
  | Json.obj fields => "\x7b" ++ jsonStringifyFields fields ++ "\x7d"

/-- Comma-separated serialisation of array items. -/
def jsonStringifyItems : List Json → String
  | [] => ""
  | [v] => jsonStringify v
  | v :: vs => jsonStringify v ++ "," ++ jsonStringifyItems vs

/-- Comma-separated serialisation of object members. -/
def jsonStringifyFields : List (String × Json) → String
  | [] => ""
  | [(k, v)] => quoteStr k ++ ":" ++ jsonStringify v
  | (k, v) :: fs => quoteStr k ++ ":" ++ jsonStringify v ++ "," ++ jsonStringifyFields fs

end

/-- JavaScript property read `v.key` on a `JSON.parse` result: defined only
for objects (last occurrence of a duplicate key wins, as in JS); every other
value yields `undefined` (`none`).  Reads on `null` throw in JS and are
handled explicitly at each use site. -/
def jsGetField (v : Json) (key : String) : Option Json :=
  match v with
  | Json.obj fields => ((fields.reverse).find? (fun p => p.1 = key)).map (fun p => p.2)
  | _ => none

/-- The defensive `JSON.parse(JSON.stringify(x))` round trip the adapter
applies to every `reviewComment` value. -/
def jsonRoundtrip (v : Json) : Option Json :=
  jsonParse (jsonStringify v)

/-- Characters removed by the recovery pass's first `replace`: the regex
character class `[\u0000-\u001F\u007F-\u009F]`. -/
def isStrippedCtl (c : Char) : Bool :=
  c.toNat ≤ 0x1F || (0x7F ≤ c.toNat && c.toNat ≤ 0x9F)

/-- Replace every occurrence of `target` by a backslash followed by `repl`
(the `.replace(/x/g, "\\x")` steps of the recovery pass). -/
def escAll (target repl : Char) (cs : List Char) : List Char :=
  (cs.map (fun c => if c = target then ['\\', repl] else [c])).flatten

/-- The apostrophe character. -/
def apos : Char := '\x27'

/-- Replace every backslash-apostrophe pair by an apostrophe (the
`.replace(/\\'/g, "'")` step), scanning left to right without overlap. -/
def unescapeApos : List Char → List Char
  | [] => []
  | '\\' :: c :: rest =>
    if c = apos then apos :: unescapeApos rest
    else '\\' :: unescapeApos (c :: rest)
  | c :: rest => c :: unescapeApos rest

/-- The adapter's recovery pass over a model response that failed the direct
`JSON.parse`: strip ASCII control characters (both regex ranges), escape
newline, carriage return, tab, form feed and double quote, and undo
backslash-escaped apostrophes — each step exactly one `replace` chain link of
the source. -/
def cleanContent (s : String) : String :=
  let a := s.data.filter (fun c => !isStrippedCtl c)
  let b := escAll '\n' 'n' a
  let c := escAll '\r' 'r' b
  let d := escAll '\t' 't' c
  let e := escAll '\x0c' 'f' d
  let f := escAll '"' '"' e
  String.mk (unescapeApos f)

/-- One structured model finding as the adapter returns it: the `lineNumber`
property read off the parsed review record (`none` models JavaScript
`undefined` when the record is not an object or lacks the field) and the
round-tripped `reviewComment` value. -/
structure Finding where
  lineNumber : Option Json
  reviewComment : Json

/-- Sanitisation of one parsed review record, mirroring the adapter's map
`(review) => ({lineNumber: review.lineNumber, reviewComment:
JSON.parse(JSON.stringify(review.reviewComment))})`.  A `null` record throws
on property access and a missing `reviewComment` makes `JSON.parse` throw on
`undefined`; both are caught by the adapter's outer handler, so this function
returns `none` for them. -/
def sanitizeReview (item : Json) : Option Finding :=
  match item with
  | Json.null => none
  | _ =>
    match jsGetField item "reviewComment" with
    | none => none
    | some rc => (jsonRoundtrip rc).map (fun rc2 => ⟨jsGetField item "lineNumber", rc2⟩)

/-- Extraction of the finding list from a parsed model response: require a
`reviews` property holding an array (the source's
`!parsedContent.reviews || !Array.isArray(parsedContent.reviews)` guard, an
array being the only truthy shape that passes), then sanitise each record.
Property access on a parsed `null` throws and is caught, yielding `none`. -/
def extractReviews (v : Json) : Option (List Finding) :=
  match v with
  | Json.null => none
  | _ =>
    match jsGetField v "reviews" with
    | some (Json.arr items) => items.mapM sanitizeReview
    | _ => none

/-- The Model Client Adapter `getAIResponse`, as a function of the network
call's outcome: `none` models a thrown network error (or any exception caught
by the outer handler), `some content` the text of a successful response (the
empty string when the first content block is not text).  Direct parse, one
recovery-pass retry, `reviews`-array check, sanitisation — every failure
returns `none` rather than propagating. -/
def getAIResponse (netContent : Option String) : Option (List Finding) :=
  match netContent with
  | none => none
  | some content =>
    match jsonParse content with
    | some v => extractReviews v
    | none =>
      match jsonParse (cleanContent content) with
      | some v => extractReviews v
      | none => none

/-- JavaScript number as relevant here: `NaN`, signed infinity, or an exact
value (rationals stand in for IEEE doubles; the coercions this program
performs are exact on every value its claims touch). -/
inductive JSNum where
  | nan : JSNum
  | inf (neg : Bool) : JSNum
  | val (q : ℚ) : JSNum
deriving DecidableEq

/-- JavaScript whitespace accepted by `trim` and string-to-number coercion:
space, tab through carriage return, no-break space, byte-order mark. -/
def isJsWs (c : Char) : Bool :=
  c = ' ' || (9 ≤ c.toNat && c.toNat ≤ 13) || c.toNat = 0xA0 || c.toNat = 0xFEFF

/-- Model of `String.prototype.trim`. -/
def jsTrim (s : String) : String :=
  String.mk (((s.data.dropWhile isJsWs).reverse.dropWhile isJsWs).reverse)

/-- Numeric value of a hexadecimal digit string (callers guard validity). -/
def hexDigitsToNat (ds : List Char) : Nat :=
  ds.foldl (fun a c => a * 16 + (hexVal c).getD 0) 0

/-- Exact value of a decimal literal `intDs . fracDs e eDs`. -/
def decValue (intDs fracDs : List Char) (eNeg : Bool) (eDs : List Char) : ℚ :=
  let base : ℚ := (digitsToNat intDs : ℚ) + (digitsToNat fracDs : ℚ) / (10 : ℚ) ^ fracDs.length
  let e : ℤ := if eNeg then -(digitsToNat eDs : ℤ) else (digitsToNat eDs : ℤ)
  base * (10 : ℚ) ^ e

/-- Decimal part of the string-to-number grammar: `digits ('.' digits?)?` or
`'.' digits`, with an optional exponent, consuming the whole input. -/
def strDecimal (neg : Bool) (cs : List Char) : JSNum :=
  let (intDs, r1) := cs.span Char.isDigit
  let (fracDs, r2) : List Char × List Char :=
    match r1 with
    | '.' :: r => r.span Char.isDigit
    | _ => ([], r1)
  if intDs = [] ∧ fracDs = [] then JSNum.nan
  else
    match r2 with
    | [] => JSNum.val ((if neg then -1 else 1) * decValue intDs fracDs false [])
    | e :: r3 =>
      if e = 'e' ∨ e = 'E' then
        let (eNeg, r4) : Bool × List Char :=
          match r3 with
          | '+' :: r4 => (false, r4)
          | '-' :: r4 => (true, r4)
          | _ => (false, r3)
        let (eDs, r5) := r4.span Char.isDigit
        if eDs = [] ∨ r5 ≠ [] then JSNum.nan
        else JSNum.val ((if neg then -1 else 1) * decValue intDs fracDs eNeg eDs)
      else JSNum.nan

/-- Model of JavaScript string-to-number coercion (`Number(string)`): trim,
empty means zero, signed `Infinity`, unsigned radix-prefixed literals, or a
decimal literal consuming the whole string; anything else is `NaN`. -/
def strToNumber (s : String) : JSNum :=
  let cs := (jsTrim s).data
  match cs with
  | [] => JSNum.val 0
  | _ =>
    let (neg, signed, body) : Bool × Bool × List Char :=
      match cs with
      | '+' :: r => (false, true, r)
      | '-' :: r => (true, true, r)
      | _ => (false, false, cs)
    if body = "Infinity".data then JSNum.inf neg
    else
      match body with
      | '0' :: x :: ds =>
        if ¬ signed ∧ (x = 'x' ∨ x = 'X') then
          if ds ≠ [] ∧ ds.all (fun c => (hexVal c).isSome) then
            JSNum.val (hexDigitsToNat ds)
          else JSNum.nan
        else if ¬ signed ∧ (x = 'o' ∨ x = 'O') then
          if ds ≠ [] ∧ ds.all (fun c => '0' ≤ c ∧ c ≤ '7') then
            JSNum.val (ds.foldl (fun a c => a * 8 + (c.toNat - 48)) 0)
          else JSNum.nan
        else if ¬ signed ∧ (x = 'b' ∨ x = 'B') then
          if ds ≠ [] ∧ ds.all (fun c => c = '0' ∨ c = '1') then
            JSNum.val (ds.foldl (fun a c => a * 2 + (c.toNat - 48)) 0)
          else JSNum.nan
        else strDecimal neg body
      | _ => strDecimal neg body

mutual

/-- Element rendering used by `Array.prototype.join` during number coercion
of an array: `null` renders empty, nested arrays join recursively, plain
objects render as `[object Object]`; number lexemes are emitted verbatim. -/
def joinElem : Json → String
  | Json.null => ""
  | Json.bool true => "true"
  | Json.bool false => "false"
  | Json.num tok => tok
  | Json.str s => s
  | Json.arr items => joinItems items
  | Json.obj _ => "[object Object]"

/-- Comma join of array elements, as `Array.prototype.toString`. -/
def joinItems : List Json → String
  | [] => ""
  | [v] => joinElem v
  | v :: vs => joinElem v ++ "," ++ joinItems vs

end

/-- Model of JavaScript `Number(x)` on a `JSON.parse` value: `null` is 0,
booleans are 0/1, numbers keep their exact lexeme value, strings coerce
through the string grammar, arrays coerce through their join string, plain
objects coerce through `[object Object]`. -/
def jsToNumber (v : Json) : JSNum :=
  match v with
  | Json.null => JSNum.val 0
  | Json.bool b => JSNum.val (if b then 1 else 0)
  | Json.num tok => strToNumber tok
  | Json.str s => strToNumber s
  | Json.arr items => strToNumber (joinItems items)
  | Json.obj _ => strToNumber "[object Object]"

/-- Model of `Number(x)` where `x` may be `undefined` (`Number(undefined)` is
`NaN`). -/
def toNumberOpt (o : Option Json) : JSNum :=
  match o with
  | none => JSNum.nan
  | some v => jsToNumber v

/-- One change line of a diff hunk as `parse-diff` yields it: its text and
its new-file (`ln2`) or single (`ln`) line number where present. -/
structure Change where
  content : String
  ln : Option Int
  ln2 : Option Int

/-- One hunk of a parsed diff: the `@@` header content and its changes. -/
structure Chunk where
  content : String
  changes : List Change

/-- One file of a parsed diff.  `fromPath`/`to` model `parse-diff`'s `from`
and `to` fields (`from` is a Lean keyword); `none` models `undefined`, and a
file present only as a deletion carries `to = some "/dev/null"`. -/
structure DiffFile where
  fromPath : Option String
  «to» : Option String
  chunks : List Chunk

/-- Pull-request context fetched once per run (`PRDetails` in the source). -/
structure PRDetails where
  owner : String
  repo : String
  pull_number : Int
  title : String
  description : String

/-- One review comment as accumulated for the batched review submission. -/
structure ReviewComment where
  body : Json
  path : String
  line : JSNum

/-- The Comment Mapper `createComment`: one comment per finding, with the
file's target path and `Number(lineNumber)` as the line; a falsy `file.to`
(undefined or empty) yields nothing for that finding.  The chunk parameter is
accepted but unused, as in the source. -/
def createComment (file : DiffFile) (_chunk : Chunk) (aiResponses : List Finding) :
    List ReviewComment :=
  aiResponses.flatMap (fun r =>
    match file.to with
    | none => []
    | some p =>
      if p = "" then []
      else [⟨r.reviewComment, p, toNumberOpt r.lineNumber⟩])

/-- The review loop `analyzeCode`: skip files whose target path is the
deleted-file sentinel `/dev/null`, and for every chunk of every other file
ask the adapter and map its findings to comments.  The adapter's outcome per
(file, chunk) is supplied by `ai` — in the full pipeline this is
`getAIResponse` applied to the network response for that chunk's prompt; the
prompt itself is a pure format of (file, chunk, PR details) and is not
inspected by any property proved here. -/
def analyzeCode (parsedDiff : List DiffFile)
    (ai : DiffFile → Chunk → Option (List Finding)) : List ReviewComment :=
  parsedDiff.flatMap (fun file =>
    if file.to = some "/dev/null" then []
    else
      file.chunks.flatMap (fun chunk =>
        match ai file chunk with
        | none => []
        | some rs => createComment file chunk rs))

/-- Split a character list on a separator, keeping empty groups. -/
def splitOnChar (sep : Char) : List Char → List (List Char)
  | [] => [[]]
  | c :: cs =>
    if c = sep then [] :: splitOnChar sep cs
    else
      match splitOnChar sep cs with
      | [] => [[c]]
      | g :: gs => (c :: g) :: gs

/-- Dropping a prefix cannot lengthen a list. -/
theorem dropWhile_length_le (p : Char → Bool) (l : List Char) :
    (l.dropWhile p).length ≤ l.length := by
  induction l with
  | nil => simp
  | cons c cs ih =>
    by_cases h : p c
    · simp only [List.dropWhile, h, List.length_cons]
      omega
    · simp [List.dropWhile, h]

/-- Split on runs of slashes (`minimatch` splits both the file and each
expanded pattern with `/\/+/`, so `a//b` has segments `a`, `b` while leading
and trailing slashes keep their empty segment). -/
def splitSlashRuns (cs : List Char) : List (List Char) :=
  go cs []
where
  /-- Accumulate the current segment (reversed) until a slash run. -/
  go : List Char → List Char → List (List Char)
    | [], acc => [acc.reverse]
    | '/' :: rest, acc => acc.reverse :: go (rest.dropWhile (fun c => c = '/')) []
    | c :: rest, acc => go rest (c :: acc)
  termination_by cs _ => cs.length
  decreasing_by
    · have := dropWhile_length_le (fun c => c = '/') rest
      simp
      omega
    · simp

/-- One element of a parsed glob segment: a literal character (escapes
resolved), the single-character wildcard `?`, the run wildcard `*`, or a
character class with its negation flag and member ranges. -/
inductive GlobItem where
  | lit (c : Char) : GlobItem
  | anyChar : GlobItem
  | star : GlobItem
  | cls (neg : Bool) (ranges : List (Char × Char)) : GlobItem

/-- Parse the body of a character class after the opening bracket (and after
the optional negation and leading `]` member): members and `a-b` ranges,
backslash escapes resolved; `none` when the class is never closed, in which
case the opening bracket is literal.  A dash before the closing bracket is a
literal member. -/
def parseClassBody : List Char → List (Char × Char) →
    Option (List (Char × Char) × List Char)
  | [], _ => none
  | ']' :: rest, acc => some (acc, rest)
  | '\\' :: c :: '-' :: ']' :: rest2, acc => some ((c, c) :: ('-', '-') :: acc, rest2)
  | '\\' :: c :: '-' :: '\\' :: d :: rest2, acc => parseClassBody rest2 ((c, d) :: acc)
  | '\\' :: c :: '-' :: d :: rest2, acc => parseClassBody rest2 ((c, d) :: acc)
  | '\\' :: c :: rest, acc => parseClassBody rest ((c, c) :: acc)
  | c :: '-' :: ']' :: rest2, acc => some ((c, c) :: ('-', '-') :: acc, rest2)
  | c :: '-' :: '\\' :: d :: rest2, acc => parseClassBody rest2 ((c, d) :: acc)
  | c :: '-' :: d :: rest2, acc => parseClassBody rest2 ((c, d) :: acc)
  | c :: rest, acc => parseClassBody rest ((c, c) :: acc)

/-- Parse a character class after the opening bracket: optional `!`/`^`
negation, then a leading `]` taken as a literal member, then the body. -/
def parseClass (cs : List Char) : Option (Bool × List (Char × Char) × List Char) :=
  let (neg, cs1) : Bool × List Char :=
    match cs with
    | '!' :: r => (true, r)
    | '^' :: r => (true, r)
    | _ => (false, cs)
  match cs1 with
  | ']' :: r => (parseClassBody r [(']', ']')]).map (fun p => (neg, p.1, p.2))
  | _ => (parseClassBody cs1 []).map (fun p => (neg, p.1, p.2))

/-- Parse one glob segment into items: backslash escapes the next character,
`?` and `*` are wildcards, `[` opens a character class when it closes and is
literal otherwise.  Fuel is at least the input length plus one. -/
def parseSegItemsFuel : Nat → List Char → List GlobItem
  | 0, _ => []
  | _, [] => []
  | fuel + 1, cs =>
    match cs with
    | [] => []
    | '\\' :: c :: rest => GlobItem.lit c :: parseSegItemsFuel fuel rest
    | '\\' :: [] => [GlobItem.lit '\\']
    | '?' :: rest => GlobItem.anyChar :: parseSegItemsFuel fuel rest
    | '*' :: rest => GlobItem.star :: parseSegItemsFuel fuel rest
    | '[' :: rest =>
      match parseClass rest with
      | some (neg, ranges, rest2) => GlobItem.cls neg ranges :: parseSegItemsFuel fuel rest2
      | none => GlobItem.lit '[' :: parseSegItemsFuel fuel rest
    | c :: rest => GlobItem.lit c :: parseSegItemsFuel fuel rest

/-- Parsed items of one glob segment. -/
def parseSegItems (cs : List Char) : List GlobItem :=
  parseSegItemsFuel (cs.length + 1) cs

/-- Match parsed segment items against one path segment's characters, with
backtracking for `*`. -/
def matchItems : List GlobItem → List Char → Bool
  | [], [] => true
  | GlobItem.star :: ps, s =>
    matchItems ps s ||
      (match s with
       | [] => false
       | _ :: s2 => matchItems (GlobItem.star :: ps) s2)
  | GlobItem.anyChar :: ps, _ :: ss => matchItems ps ss
  | GlobItem.lit c :: ps, d :: ss => c = d && matchItems ps ss
  | GlobItem.cls neg ranges :: ps, d :: ss =>
    ((ranges.any (fun r => r.1 ≤ d ∧ d ≤ r.2)) != neg) && matchItems ps ss
  | _, _ => false
termination_by ps s => (s.length, ps.length)

/-- Whether an item is a resolved literal. -/
def isLitItem : GlobItem → Bool
  | GlobItem.lit _ => true
  | _ => false

/-- The character of a literal item (unused default otherwise). -/
def litItemChar : GlobItem → Char
  | GlobItem.lit c => c
  | _ => ' '

/-- Whether a segment's characters start with a dot. -/
def startsWithDot : List Char → Bool
  | '.' :: _ => true
  | _ => false

/-- Match one pattern segment against one path segment, as the library does:
a segment with no wildcard compares as the unescaped literal string, and a
wildcard segment is guarded by the default dot rule — a path segment
starting with a dot matches only when the pattern segment's first character
is a literal dot. -/
def segMatch (pat name : List Char) : Bool :=
  let items := parseSegItems pat
  if items.all isLitItem then name == items.map litItemChar
  else if startsWithDot name && !startsWithDot pat then false
  else matchItems items name

/-- Match pattern segments against path segments following the library's
`matchOne`: a `**` segment in final position swallows every remaining
segment provided none starts with a dot; elsewhere it swallows zero or more
non-dot segments (never trying the rest against an exhausted path, as the
library's swallow loop does not); a path's single trailing empty segment is
forgiven when the pattern is exhausted. -/
def matchSegs : List (List Char) → List (List Char) → Bool
  | [], [] => true
  | [], [f] => f == []
  | [], _ => false
  | p :: ps, [] => if p = ['*', '*'] ∧ ps = [] then true else false
  | p :: ps, f :: fs2 =>
    if p = ['*', '*'] then
      if ps = [] then (f :: fs2).all (fun g => !startsWithDot g)
      else matchSegs ps (f :: fs2) || (!startsWithDot f && matchSegs (p :: ps) fs2)
    else segMatch p f && matchSegs ps fs2
termination_by ps fs => (fs.length, ps.length)

/-- Toggle the negation flag once per leading `!`, returning the remaining
pattern (the library's `parseNegate`). -/
def parseNegateAux : Bool → List Char → Bool × List Char
  | acc, '!' :: rest => parseNegateAux (!acc) rest
  | acc, cs => (acc, cs)

/-- Split a brace body on top-level commas, tracking nesting and escapes. -/
def splitTopComma : List Char → Nat → List Char → List (List Char)
  | [], _, acc => [acc.reverse]
  | ',' :: rest, 0, acc => acc.reverse :: splitTopComma rest 0 []
  | '{' :: rest, d, acc => splitTopComma rest (d + 1) ('{' :: acc)
  | '}' :: rest, d + 1, acc => splitTopComma rest d ('}' :: acc)
  | '\\' :: c :: rest, d, acc => splitTopComma rest d (c :: '\\' :: acc)
  | c :: rest, d, acc => splitTopComma rest d (c :: acc)

/-- Find the matching close brace for an already-open brace, returning the
body and the remainder; `none` when unbalanced. -/
def matchCloseBrace : List Char → Nat → List Char → Option (List Char × List Char)
  | [], _, _ => none
  | '\\' :: c :: rest, d, acc => matchCloseBrace rest d (c :: '\\' :: acc)
  | '}' :: rest, 0, acc => some (acc.reverse, rest)
  | '}' :: rest, d + 1, acc => matchCloseBrace rest d ('}' :: acc)
  | '{' :: rest, d, acc => matchCloseBrace rest (d + 1) ('{' :: acc)
  | c :: rest, d, acc => matchCloseBrace rest d (c :: acc)

/-- Decimal digits of an integer, for rendering brace-range alternatives. -/
def intChars (i : Int) : List Char :=
  (toString i).data

/-- Inclusive integer interval in either direction. -/
def intRange (a b : Int) : List Int :=
  if a ≤ b then (List.range (b - a + 1).toNat).map (fun k => a + k)
  else (List.range (a - b + 1).toNat).map (fun k => a - k)

/-- Read an optionally negated decimal literal occupying the whole input. -/
def readIntAll (cs : List Char) : Option Int :=
  match cs with
  | '-' :: ds =>
    if ds ≠ [] ∧ ds.all Char.isDigit then some (-(digitsToNat ds : Int)) else none
  | ds =>
    if ds ≠ [] ∧ ds.all Char.isDigit then some ((digitsToNat ds : Int)) else none

/-- Split at the first adjacent pair of dots, when one exists. -/
def splitDotDot : List Char → Option (List Char × List Char)
  | [] => none
  | '.' :: '.' :: rest => some ([], rest)
  | c :: rest => (splitDotDot rest).map (fun p => (c :: p.1, p.2))

/-- Alternatives of one brace body: a top-level comma set, a numeric
`x..y` range, or a single-letter `a..b` range; `none` when the body expands
to nothing (the brace pair is then literal). -/
def braceAlternatives (body : List Char) : Option (List (List Char)) :=
  match splitTopComma body 0 [] with
  | [] => none
  | [single] =>
    match splitDotDot single with
    | some (xs, ys) =>
      match readIntAll xs, readIntAll ys with
      | some a, some b => some ((intRange a b).map intChars)
      | _, _ =>
        match xs, ys with
        | [c], [d] =>
          if c.isAlpha ∧ d.isAlpha then
            some ((intRange c.toNat d.toNat).map (fun i => [Char.ofNat i.toNat]))
          else none
        | _, _ => none
    | none => none
  | parts => some parts

/-- Find the leftmost expandable brace group, skipping escaped braces and
`${` groups, descending into unexpandable groups: returns the prefix, the
alternatives and the suffix. -/
def findExpandable : List Char → Option (List Char × List (List Char) × List Char)
  | [] => none
  | '\\' :: c :: rest =>
    (findExpandable rest).map (fun p => ('\\' :: c :: p.1, p.2.1, p.2.2))
  | '$' :: '{' :: rest =>
    (findExpandable rest).map (fun p => ('$' :: '{' :: p.1, p.2.1, p.2.2))
  | '{' :: rest =>
    match matchCloseBrace rest 0 [] with
    | none => (findExpandable rest).map (fun p => ('{' :: p.1, p.2.1, p.2.2))
    | some (body, suf) =>
      match braceAlternatives body with
      | some alts => some ([], alts, suf)
      | none => (findExpandable rest).map (fun p => ('{' :: p.1, p.2.1, p.2.2))
  | c :: rest =>
    (findExpandable rest).map (fun p => (c :: p.1, p.2.1, p.2.2))

/-- Bash-style brace expansion as the library applies it before glob
matching: expand the leftmost expandable group and recurse on each result.
Fuel is at least the pattern length plus one (each expansion strictly
shortens the string). -/
def expandBraces : Nat → List Char → List (List Char)
  | 0, cs => [cs]
  | fuel + 1, cs =>
    match findExpandable cs with
    | none => [cs]
    | some (pre, alts, suf) =>
      alts.flatMap (fun alt => expandBraces fuel (pre ++ alt ++ suf))

/-- Model of the `minimatch` library call used by the exclusion filter, with
its default options: an empty pattern matches only the empty path; a pattern
starting with `#` is a comment and matches nothing; leading `!` characters
toggle negation; the rest is brace-expanded into a pattern set, each member
split on slash runs and matched segment-wise (`?`, `*`, character classes,
backslash escapes, the dot-segment default, `**` spanning segments, a
forgiven trailing slash on the path); the path matches when some set member
matches, then negation is applied.  Extended-glob group forms — not among
the shell-glob constructs this program's configuration documents — are
outside the model and parse as literals. -/
def minimatch (path pattern : String) : Bool :=
  if pattern = "" then path = ""
  else
    match pattern.data with
    | '#' :: _ => false
    | _ =>
      let (neg, rest) := parseNegateAux false pattern.data
      let pats := expandBraces (rest.length + 1) rest
      let fsegs := splitSlashRuns path.data
      (pats.any (fun p => matchSegs (splitSlashRuns p) fsegs)) != neg

/-- The exclusion-pattern configuration split on commas and trimmed, as in
`core.getInput("exclude").split(",").map((s) => s.trim())`. -/
def parseExcludePatterns (input : String) : List String :=
  (splitOnChar ',' input.data).map (fun g => jsTrim (String.mk g))

/-- The Exclusion Filter: keep a parsed file unless its target path (the
empty string when absent, `file.to ?? ""`) matches some configured pattern. -/
def filteredDiff (excludePatterns : List String) (parsedDiff : List DiffFile) :
    List DiffFile :=
  parsedDiff.filter (fun file =>
    ! excludePatterns.any (fun pattern => minimatch (file.to.getD "") pattern))

/-- The score extraction `parsePylint`: first occurrence of
`Your code has been rated at ` followed by `digits.digits` (the regex
`/Your code has been rated at (\d+\.\d+)/`), with `parseFloat` of the
captured digits, or 0 when no match exists. -/
def ratedLit : List Char := "Your code has been rated at ".data

/-- Match `digits+ '.' digits+` at the head of the input, returning the two
digit groups. -/
def matchScoreDigits (cs : List Char) : Option (List Char × List Char) :=
  let (ds, r1) := cs.span Char.isDigit
  if ds = [] then none
  else
    match r1 with
    | '.' :: r2 =>
      let (fs, _) := r2.span Char.isDigit
      if fs = [] then none else some (ds, fs)
    | _ => none

/-- Leftmost match of the rating pattern: at each position try the literal
followed by the digit groups, else advance one character, as the regex
engine does. -/
def pylintFirstMatch : List Char → Option (List Char × List Char)
  | [] => none
  | c :: cs =>
    if ratedLit.isPrefixOf (c :: cs) then
      match matchScoreDigits ((c :: cs).drop ratedLit.length) with
      | some p => some p
      | none => pylintFirstMatch cs
    else pylintFirstMatch cs

/-- Numeric value of the captured score digits (`parseFloat` is exact on
`digits.digits`). -/
def scoreValue (p : List Char × List Char) : ℚ :=
  (digitsToNat p.1 : ℚ) + (digitsToNat p.2 : ℚ) / (10 : ℚ) ^ p.2.length

/-- The source's `parsePylint`. -/
def parsePylint (pylintOutput : String) : ℚ :=
  match pylintFirstMatch pylintOutput.data with
  | some p => scoreValue p
  | none => 0

/-- The Lint Score Collector `getPylintScore`, as a function of the `glob`
scan result and the `execAsync` outcome: no Python files means an immediate
10; otherwise a rejected exec promise propagates as an error (nothing in the
source catches it), and a fulfilled one has its stdout parsed — stderr is
only logged. -/
def getPylintScore (files : List String)
    (execResult : Except String (String × String)) : Except String ℚ :=
  if files.length = 0 then Except.ok 10
  else
    match execResult with
    | Except.error e => Except.error e
    | Except.ok (stdout, _stderr) => Except.ok (parsePylint stdout)

/-- Side-effecting host-API submissions the run can make, in order: the
lint-score issue comment (`addPullRequestComment`; the body formats the score
to two decimals, carried here as the exact score) and the batched review
(`createReviewComment` with its event type). -/
inductive HostCall where
  | issueComment (owner repo : String) (issue_number : Int) (score : ℚ) : HostCall
  | review (owner repo : String) (pull_number : Int)
      (comments : List ReviewComment) (event : String) : HostCall

/-- The orchestrator `main` from event dispatch to submission, as a function
of its external inputs: the event action, the diff text the host returned
(`none` models a null response), the `parse-diff` result for that text, the
PR details, the model response text per (file, chunk) (`none` models a thrown
network call), the raw `exclude` input, and the Lint Score Collector's inputs.
The result is the ordered list of submissions, or the error that aborted the
run (caught only by the top-level handler, which exits nonzero). -/
def mainRun (eventAction : String) (diffOpt : Option String)
    (parsedDiff : List DiffFile) (prDetails : PRDetails)
    (net : DiffFile → Chunk → Option String) (excludeInput : String)
    (pyFiles : List String) (pylintExec : Except String (String × String)) :
    Except String (List HostCall) :=
  if eventAction = "opened" ∨ eventAction = "synchronize" then
    match diffOpt with
    | none => Except.ok []
    | some diff =>
      if diff = "" then Except.ok []
      else
        let excludePatterns := parseExcludePatterns excludeInput
        let filtered := filteredDiff excludePatterns parsedDiff
        let comments := analyzeCode filtered (fun f c => getAIResponse (net f c))
        match getPylintScore pyFiles pylintExec with
        | Except.error e => Except.error e
        | Except.ok score =>
          Except.ok
            ([HostCall.issueComment prDetails.owner prDetails.repo
                prDetails.pull_number score] ++
              (if comments.length > 0 then
                [HostCall.review prDetails.owner prDetails.repo
                  prDetails.pull_number comments "COMMENT"]
              else []))
  else Except.ok []

/-- Submissions a run actually performed.  An aborted run has performed none:
the only uncaught failure point inside the pipeline — the awaited linter
exec — precedes both the lint comment and the review submission. -/
def performedCalls (result : Except String (List HostCall)) : List HostCall :=
  match result with
  | Except.ok calls => calls
  | Except.error _ => []

section Fixtures

/-- A pull-request context used for concrete runs. -/
def samplePR : PRDetails := ⟨"octo", "repo", 1, "Add feature", "Adds a feature"⟩

/-- A one-change hunk used for concrete runs. -/
def sampleChunk : Chunk := ⟨"@@ -1,1 +1,1 @@", [⟨"+x = 1", none, some 1⟩]⟩

/-- A retained file with one chunk. -/
def sampleFile : DiffFile := ⟨some "app.py", some "app.py", [sampleChunk]⟩

/-- A file present only as a deletion (sentinel target path). -/
def deletedFile : DiffFile := ⟨some "old.py", some "/dev/null", [sampleChunk]⟩

/-- A model network response carrying one finding on line 2. -/
def reviewNet : DiffFile → Chunk → Option String := fun _ _ =>
  some "\x7b\"reviews\": [\x7b\"lineNumber\": \"2\", \"reviewComment\": \"Fix\"\x7d]\x7d"

/-- A model network response whose finding names line 0. -/
def zeroLineNet : DiffFile → Chunk → Option String := fun _ _ =>
  some "\x7b\"reviews\": [\x7b\"lineNumber\": \"0\", \"reviewComment\": \"Fix\"\x7d]\x7d"

/-- A realistic lint report containing the rating sentence. -/
def sampleReport : String :=
  "************* Module app\n" ++
  "app.py:1:0: C0114: Missing module docstring\n\n" ++
  "-----------------------------------\n" ++
  "Your code has been rated at 7.50/10\n"

end Fixtures

/-- C6: the Lint Score Collector returns exactly 10 when no qualifying source
files are found (whatever the subprocess would have done), returns 7.50 on a
report containing `Your code has been rated at 7.50`, and returns 0 on a
report with no sentence matching the rating pattern. -/
theorem pylint_score_spec :
    (∀ execResult, getPylintScore [] execResult = Except.ok 10) ∧
    parsePylint sampleReport = 7.5 ∧
    (∀ s : String, pylintFirstMatch s.data = none → parsePylint s = 0) := by
  refine ⟨fun _ => rfl, ?_, ?_⟩
  · have h1 : pylintFirstMatch sampleReport.data = some (['7'], ['5', '0']) := by decide
    have h7 : digitsToNat ['7'] = 7 := rfl
    have h50 : digitsToNat ['5', '0'] = 50 := rfl
    unfold parsePylint
    rw [h1]
    unfold scoreValue
    simp only [h7, h50]
    norm_num
  · intro s h
    unfold parsePylint
    rw [h]

/-- Witness for C6 at concrete inputs: a rejected subprocess with no files
still scores 10, and a report with no rating sentence scores 0. -/
theorem pylint_score_spec_witness :
    getPylintScore [] (Except.error "boom") = Except.ok 10 ∧
    parsePylint "no rating sentence here" = 0 :=
  ⟨pylint_score_spec.1 (Except.error "boom"),
   pylint_score_spec.2.2 "no rating sentence here" (by decide)⟩

/-- C10: splitting the empty exclusion configuration on commas yields the
single pattern `[""]`, and filtering with it drops exactly the files whose
target path is absent or empty (compared as the empty string, which is all
the empty pattern matches) while keeping every file with a non-empty target
path. -/
theorem empty_exclude_drops_pathless (parsedDiff : List DiffFile) :
    parseExcludePatterns "" = [""] ∧
    ∀ f, f ∈ filteredDiff (parseExcludePatterns "") parsedDiff ↔
      f ∈ parsedDiff ∧ f.to.getD "" ≠ "" := by
  have hp : parseExcludePatterns "" = [""] := by decide
  refine ⟨hp, ?_⟩
  intro f
  rw [hp]
  simp [filteredDiff, List.mem_filter, minimatch]

/-- Characterisation of the Comment Mapper's output: every produced comment
comes from some finding of the input list, carries the file's target path
(which is present and non-empty), the finding's comment body, and
`Number(lineNumber)` as its line. -/
theorem mem_createComment {file : DiffFile} {chunk : Chunk} {rs : List Finding}
    {c : ReviewComment} (hc : c ∈ createComment file chunk rs) :
    ∃ r ∈ rs, file.to = some c.path ∧ c.path ≠ "" ∧
      c.body = r.reviewComment ∧ c.line = toNumberOpt r.lineNumber := by
  unfold createComment at hc
  rw [List.mem_flatMap] at hc
  obtain ⟨r, hr, hcr⟩ := hc
  refine ⟨r, hr, ?_⟩
  cases hto : file.to with
  | none => rw [hto] at hcr; simp at hcr
  | some p =>
    rw [hto] at hcr
    by_cases hp : p = ""
    · simp [hp] at hcr
    · simp [hp] at hcr
      subst hcr
      exact ⟨rfl, hp, rfl, rfl⟩

/-- C4 (amended): every ReviewComment's `line` is the raw JavaScript numeric
coercion `Number(lineNumber)` of some finding's `lineNumber` — with no
positivity, integrality or bounds check of any kind. -/
theorem comment_line_is_raw_coercion (file : DiffFile) (chunk : Chunk)
    (rs : List Finding) :
    ∀ c ∈ createComment file chunk rs,
      ∃ r ∈ rs, c.line = toNumberOpt r.lineNumber ∧ c.body = r.reviewComment ∧
        file.to = some c.path := by
  intro c hc
  obtain ⟨r, hr, h1, _, h3, h4⟩ := mem_createComment hc
  exact ⟨r, hr, h4, h3, h1⟩

/-- C4 (counterexample): it is not the case that every comment a run produces
carries a positive integer line — a model finding whose `lineNumber` is the
string `"0"` flows through unvalidated and yields `line = 0`. -/
theorem comment_line_not_positive_cex :
    ¬ ∀ (parsedDiff : List DiffFile) (ai : DiffFile → Chunk → Option (List Finding))
        (c : ReviewComment), c ∈ analyzeCode parsedDiff ai →
          ∃ n : ℕ, 0 < n ∧ c.line = JSNum.val (n : ℚ) := by
  intro h
  have hval : analyzeCode [sampleFile] (fun f c => getAIResponse (zeroLineNet f c)) =
      [⟨Json.str "Fix", "app.py", toNumberOpt (some (Json.str "0"))⟩] := rfl
  have hmem : (⟨Json.str "Fix", "app.py", toNumberOpt (some (Json.str "0"))⟩ :
      ReviewComment) ∈
      analyzeCode [sampleFile] (fun f c => getAIResponse (zeroLineNet f c)) := by
    rw [hval]; exact List.mem_singleton.mpr rfl
  obtain ⟨n, hn, heq⟩ := h _ _ _ hmem
  have hzero : toNumberOpt (some (Json.str "0")) = JSNum.val 0 := by
    have h1 : toNumberOpt (some (Json.str "0")) =
        JSNum.val ((if (false : Bool) then -1 else 1) * decValue ['0'] [] false []) := rfl
    have hd : digitsToNat ['0'] = 0 := by decide
    have hd2 : digitsToNat ([] : List Char) = 0 := rfl
    rw [h1]
    norm_num [decValue, hd, hd2]
  rw [hzero] at heq
  have : (0 : ℚ) = (n : ℚ) := by injection heq
  have : n = 0 := by exact_mod_cast this.symm
  omega

/-- C5: files whose target path is the deleted-file sentinel `/dev/null`
contribute nothing to the review loop's output (removing them changes
nothing), and every produced comment's path is the non-sentinel target path
of some file of the parsed diff — whatever the model returns. -/
theorem deleted_files_never_commented (parsedDiff : List DiffFile)
    (ai : DiffFile → Chunk → Option (List Finding)) :
    analyzeCode parsedDiff ai =
      analyzeCode (parsedDiff.filter (fun f => f.to ≠ some "/dev/null")) ai ∧
    ∀ c ∈ analyzeCode parsedDiff ai,
      ∃ f ∈ parsedDiff, f.to = some c.path ∧ c.path ≠ "/dev/null" := by
  constructor
  · induction parsedDiff with
    | nil => rfl
    | cons f fs ih =>
      by_cases hto : f.to = some "/dev/null"
      · simp [analyzeCode, List.filter_cons, hto] at ih ⊢
        exact ih
      · simp [analyzeCode, List.filter_cons, hto] at ih ⊢
        exact ih
  · intro c hc
    unfold analyzeCode at hc
    rw [List.mem_flatMap] at hc
    obtain ⟨f, hf, hcf⟩ := hc
    by_cases hto : f.to = some "/dev/null"
    · rw [if_pos hto] at hcf; simp at hcf
    · rw [if_neg hto] at hcf
      rw [List.mem_flatMap] at hcf
      obtain ⟨chunk, _, hcc⟩ := hcf
      cases hai : ai f chunk with
      | none => rw [hai] at hcc; simp at hcc
      | some rs =>
        rw [hai] at hcc
        obtain ⟨r, _, hpath, _, _, _⟩ := mem_createComment hcc
        refine ⟨f, hf, hpath, ?_⟩
        intro hdev
        exact hto (hdev ▸ hpath)

/-- Witness for C5 at a concrete run containing a deleted file: the produced
comment's path is the retained file's target path. -/
theorem deleted_files_never_commented_witness :
    ∃ f ∈ [sampleFile, deletedFile], f.to = some "app.py" ∧ "app.py" ≠ "/dev/null" := by
  have hval : analyzeCode [sampleFile, deletedFile]
      (fun f c => getAIResponse (reviewNet f c)) =
      [⟨Json.str "Fix", "app.py", toNumberOpt (some (Json.str "2"))⟩] := rfl
  have hmem : (⟨Json.str "Fix", "app.py", toNumberOpt (some (Json.str "2"))⟩ :
      ReviewComment) ∈
      analyzeCode [sampleFile, deletedFile] (fun f c => getAIResponse (reviewNet f c)) := by
    rw [hval]; exact List.mem_singleton.mpr rfl
  exact (deleted_files_never_commented [sampleFile, deletedFile]
      (fun f c => getAIResponse (reviewNet f c))).2 _ hmem

/-- Witness for C4 (amended) at a concrete finding with `lineNumber "0"`. -/
theorem comment_line_is_raw_coercion_witness :
    ∃ r ∈ [(⟨some (Json.str "0"), Json.str "Fix"⟩ : Finding)],
      (⟨Json.str "Fix", "app.py", toNumberOpt (some (Json.str "0"))⟩ :
          ReviewComment).line = toNumberOpt r.lineNumber ∧
        (⟨Json.str "Fix", "app.py", toNumberOpt (some (Json.str "0"))⟩ :
          ReviewComment).body = r.reviewComment ∧
        sampleFile.to = some (⟨Json.str "Fix", "app.py",
          toNumberOpt (some (Json.str "0"))⟩ : ReviewComment).path := by
  have hval : createComment sampleFile sampleChunk
      [(⟨some (Json.str "0"), Json.str "Fix"⟩ : Finding)] =
      [⟨Json.str "Fix", "app.py", toNumberOpt (some (Json.str "0"))⟩] := rfl
  exact comment_line_is_raw_coercion sampleFile sampleChunk _ _
    (by rw [hval]; exact List.mem_singleton.mpr rfl)

/-- C1 (counterexample): a run in which the linter subprocess fails — here
`execAsync` rejects because `pylint` cannot be spawned — aborts with that
error even though a review comment was pending: nothing catches the rejected
promise, so review submission does not proceed. -/
theorem lint_failure_aborts_run_cex :
    mainRun "opened" (some "diff text") [sampleFile] samplePR reviewNet ""
        ["app.py"] (Except.error "spawn pylint ENOENT") =
      Except.error "spawn pylint ENOENT" ∧
    analyzeCode (filteredDiff (parseExcludePatterns "") [sampleFile])
        (fun f c => getAIResponse (reviewNet f c)) ≠ [] := by
  constructor
  · rfl
  · have hval : analyzeCode (filteredDiff (parseExcludePatterns "") [sampleFile])
        (fun f c => getAIResponse (reviewNet f c)) =
        [⟨Json.str "Fix", "app.py", toNumberOpt (some (Json.str "2"))⟩] := rfl
    rw [hval]
    simp

/-- C1 (amended): when the linter subprocess invocation fails (the exec
promise rejects) and at least one Python file was found, the whole run aborts
with that error — no lint comment and no review submission happens, because
nothing in the source catches the rejection.  (Only stderr text accompanying
a successful, exit-zero invocation is merely logged.) -/
theorem lint_exec_error_aborts_run (eventAction diff : String)
    (parsedDiff : List DiffFile) (prDetails : PRDetails)
    (net : DiffFile → Chunk → Option String) (excludeInput : String)
    (pyFiles : List String) (e : String)
    (hact : eventAction = "opened" ∨ eventAction = "synchronize")
    (hdiff : diff ≠ "") (hfiles : pyFiles ≠ []) :
    mainRun eventAction (some diff) parsedDiff prDetails net excludeInput pyFiles
      (Except.error e) = Except.error e := by
  have hlen : ¬ pyFiles.length = 0 := by
    simpa [List.length_eq_zero] using hfiles
  rcases hact with h | h <;> subst h <;>
    simp [mainRun, hdiff, getPylintScore, hlen]

/-- Witness for C1 (amended) at a concrete failing exec. -/
theorem lint_exec_error_aborts_run_witness :
    mainRun "synchronize" (some "diff text") [sampleFile] samplePR reviewNet ""
      ["app.py"] (Except.error "boom") = Except.error "boom" :=
  lint_exec_error_aborts_run "synchronize" "diff text" [sampleFile] samplePR
    reviewNet "" ["app.py"] "boom" (Or.inr rfl) (by decide) (by decide)

/-- Unfolding equation of the adapter on a successful network response. -/
theorem getAIResponse_some (content : String) :
    getAIResponse (some content) =
      match jsonParse content with
      | some v => extractReviews v
      | none =>
        match jsonParse (cleanContent content) with
        | some v => extractReviews v
        | none => none := rfl

/-- C2: the Model Client Adapter never propagates an error — a thrown network
call, a response text failing both the direct parse and the single
cleaned-retry parse, and a parsed value lacking a `reviews` array all yield
the no-findings result `none`. -/
theorem adapter_never_propagates :
    getAIResponse none = none ∧
    (∀ content : String, jsonParse content = none →
      jsonParse (cleanContent content) = none → getAIResponse (some content) = none) ∧
    (∀ (content : String) (v : Json), jsonParse content = some v →
      (∀ items, jsGetField v "reviews" ≠ some (Json.arr items)) →
      getAIResponse (some content) = none) := by
  refine ⟨rfl, ?_, ?_⟩
  · intro content h1 h2
    rw [getAIResponse_some, h1, h2]
  · intro content v h1 h2
    rw [getAIResponse_some, h1]
    show extractReviews v = none
    unfold extractReviews
    split
    · rfl
    · split
      · next items heq => exact absurd heq (h2 items)
      · rfl

/-- Witness for C2: a doubly-unparseable response and a response lacking a
`reviews` array both yield `none`. -/
theorem adapter_never_propagates_witness :
    getAIResponse (some "not json") = none ∧
    getAIResponse (some "\x7b\"score\": 1\x7d") = none :=
  ⟨adapter_never_propagates.2.1 "not json" rfl rfl,
   adapter_never_propagates.2.2 "\x7b\"score\": 1\x7d"
     (Json.obj [("score", Json.num "1")]) rfl
     (fun _ h => Option.noConfusion h)⟩

/-- C3: a response text that fails the direct parse but parses after the
recovery pass produces exactly the structured result that any directly valid
JSON encoding of the same parsed value produces — the adapter's output
factors through the parsed JSON value, whichever parse produced it. -/
theorem recovery_parse_agrees_with_direct (content altContent : String) (v : Json)
    (hfail : jsonParse content = none)
    (hrec : jsonParse (cleanContent content) = some v)
    (hdirect : jsonParse altContent = some v) :
    getAIResponse (some content) = getAIResponse (some altContent) := by
  rw [getAIResponse_some, getAIResponse_some, hfail, hrec, hdirect]

/-- Witness for C3: a response broken only by a raw control character parses
after cleaning to the same value as its clean encoding, and the adapter
agrees on both. -/
theorem recovery_parse_agrees_with_direct_witness :
    getAIResponse (some "[1,\x072]") = getAIResponse (some "[1,2]") :=
  recovery_parse_agrees_with_direct "[1,\x072]" "[1,2]"
    (Json.arr [Json.num "1", Json.num "2"]) rfl rfl rfl

/-- With a fulfilled exec promise the Lint Score Collector always succeeds,
scoring 10 with no files and the parsed report otherwise. -/
theorem getPylintScore_ok (files : List String) (stdout stderr : String) :
    getPylintScore files (Except.ok (stdout, stderr)) =
      Except.ok (if files.length = 0 then 10 else parsePylint stdout) := by
  by_cases h : files.length = 0
  · simp [getPylintScore, h]
  · simp [getPylintScore, h]

/-- C7 (counterexample): the claim's iff — the batched review is submitted
iff the accumulated ReviewComment count is nonzero — fails on a concrete run:
the linter exec rejects after one comment accumulated, the run aborts, and no
review call is performed although the count is nonzero. -/
theorem review_iff_comments_cex :
    ¬ ((∃ o r pn cs ev, HostCall.review o r pn cs ev ∈
          performedCalls (mainRun "opened" (some "diff text") [sampleFile] samplePR
            reviewNet "" ["app.py"] (Except.error "spawn pylint ENOENT"))) ↔
        analyzeCode (filteredDiff (parseExcludePatterns "") [sampleFile])
          (fun f c => getAIResponse (reviewNet f c)) ≠ []) := by
  intro h
  have hcalls : performedCalls (mainRun "opened" (some "diff text") [sampleFile]
      samplePR reviewNet "" ["app.py"] (Except.error "spawn pylint ENOENT")) = [] := rfl
  have hcomments : analyzeCode (filteredDiff (parseExcludePatterns "") [sampleFile])
      (fun f c => getAIResponse (reviewNet f c)) =
      [⟨Json.str "Fix", "app.py", toNumberOpt (some (Json.str "2"))⟩] := rfl
  have hne : analyzeCode (filteredDiff (parseExcludePatterns "") [sampleFile])
      (fun f c => getAIResponse (reviewNet f c)) ≠ [] := by
    rw [hcomments]; simp
  obtain ⟨o, r, pn, cs, ev, hmem⟩ := h.mpr hne
  rw [hcalls] at hmem
  simp at hmem

/-- C7 (amended): on a run that reaches the submission stage (supported
action, non-empty diff, fulfilled linter exec), the batched review with
event type `COMMENT` is submitted iff the accumulated comment list is
nonempty, and with zero accumulated comments no review submission call is
made at all; a run aborted by the linter exec rejection submits nothing even
when comments accumulated. -/
theorem review_submission_iff_comments
    (eventAction diff : String) (parsedDiff : List DiffFile) (prDetails : PRDetails)
    (net : DiffFile → Chunk → Option String) (excludeInput : String)
    (pyFiles : List String) (stdout stderr : String)
    (hact : eventAction = "opened" ∨ eventAction = "synchronize")
    (hdiff : diff ≠ "") :
    ∃ calls : List HostCall,
      mainRun eventAction (some diff) parsedDiff prDetails net excludeInput pyFiles
          (Except.ok (stdout, stderr)) = Except.ok calls ∧
      (analyzeCode (filteredDiff (parseExcludePatterns excludeInput) parsedDiff)
          (fun f c => getAIResponse (net f c)) = [] →
        ∀ o r pn cs ev, HostCall.review o r pn cs ev ∉ calls) ∧
      ((∃ o r pn cs ev, HostCall.review o r pn cs ev ∈ calls) ↔
        analyzeCode (filteredDiff (parseExcludePatterns excludeInput) parsedDiff)
          (fun f c => getAIResponse (net f c)) ≠ []) ∧
      (∀ o r pn cs ev, HostCall.review o r pn cs ev ∈ calls →
        cs = analyzeCode (filteredDiff (parseExcludePatterns excludeInput) parsedDiff)
            (fun f c => getAIResponse (net f c)) ∧ ev = "COMMENT") := by
  by_cases hc : analyzeCode (filteredDiff (parseExcludePatterns excludeInput) parsedDiff)
      (fun f c => getAIResponse (net f c)) = []
  · have hmain : mainRun eventAction (some diff) parsedDiff prDetails net excludeInput
        pyFiles (Except.ok (stdout, stderr)) =
        Except.ok [HostCall.issueComment prDetails.owner prDetails.repo
          prDetails.pull_number (if pyFiles.length = 0 then 10 else parsePylint stdout)] := by
      rcases hact with h | h <;> subst h <;>
        simp [mainRun, hdiff, getPylintScore_ok, hc]
    refine ⟨_, hmain, ?_, ?_, ?_⟩
    · intro _ o r pn cs ev hmem
      simp at hmem
    · constructor
      · rintro ⟨o, r, pn, cs, ev, hmem⟩
        simp at hmem
      · intro hne
        exact absurd hc hne
    · intro o r pn cs ev hmem
      simp at hmem
  · have hlen : 0 < (analyzeCode (filteredDiff (parseExcludePatterns excludeInput)
        parsedDiff) (fun f c => getAIResponse (net f c))).length :=
      List.length_pos.mpr hc
    have hmain : mainRun eventAction (some diff) parsedDiff prDetails net excludeInput
        pyFiles (Except.ok (stdout, stderr)) =
        Except.ok [HostCall.issueComment prDetails.owner prDetails.repo
            prDetails.pull_number (if pyFiles.length = 0 then 10 else parsePylint stdout),
          HostCall.review prDetails.owner prDetails.repo prDetails.pull_number
            (analyzeCode (filteredDiff (parseExcludePatterns excludeInput) parsedDiff)
              (fun f c => getAIResponse (net f c))) "COMMENT"] := by
      rcases hact with h | h <;> subst h <;>
        simp [mainRun, hdiff, getPylintScore_ok, hlen]
    refine ⟨_, hmain, ?_, ?_, ?_⟩
    · intro h0
      exact absurd h0 hc
    · constructor
      · intro _
        exact hc
      · intro _
        exact ⟨prDetails.owner, prDetails.repo, prDetails.pull_number,
          analyzeCode (filteredDiff (parseExcludePatterns excludeInput) parsedDiff)
            (fun f c => getAIResponse (net f c)), "COMMENT", by simp⟩
    · intro o r pn cs ev hmem
      simp at hmem
      exact ⟨hmem.2.2.2.1, hmem.2.2.2.2⟩

/-- Witness for C7 at a concrete run with an empty parsed diff: the run
succeeds and no review call appears among the submissions. -/
theorem review_submission_iff_comments_witness :
    ∃ calls : List HostCall,
      mainRun "opened" (some "diff text") [] samplePR reviewNet "" []
          (Except.ok ("report", "")) = Except.ok calls ∧
      (analyzeCode (filteredDiff (parseExcludePatterns "") [])
          (fun f c => getAIResponse (reviewNet f c)) = [] →
        ∀ o r pn cs ev, HostCall.review o r pn cs ev ∉ calls) ∧
      ((∃ o r pn cs ev, HostCall.review o r pn cs ev ∈ calls) ↔
        analyzeCode (filteredDiff (parseExcludePatterns "") [])
          (fun f c => getAIResponse (reviewNet f c)) ≠ []) ∧
      (∀ o r pn cs ev, HostCall.review o r pn cs ev ∈ calls →
        cs = analyzeCode (filteredDiff (parseExcludePatterns "") [])
            (fun f c => getAIResponse (reviewNet f c)) ∧ ev = "COMMENT") :=
  review_submission_iff_comments "opened" "diff text" [] samplePR reviewNet "" []
    "report" "" (Or.inl rfl) (by decide)

/-- Hexadecimal digit characters decode back to their value. -/
theorem hexVal_hexDigitChar {m : Nat} (hm : m < 16) :
    hexVal (hexDigitChar m) = some m := by
  have h : ∀ m, m < 16 → hexVal (hexDigitChar m) = some m := by decide
  exact h m hm

/-- Escaping a character never produces the empty sequence. -/
theorem escapeChar_length_pos (c : Char) : 1 ≤ (escapeChar c).length := by
  unfold escapeChar
  split_ifs <;> simp

/-- Escaping cannot shrink a string. -/
theorem length_le_flatten_escape (cs : List Char) :
    cs.length ≤ ((cs.map escapeChar).flatten).length := by
  induction cs with
  | nil => simp
  | cons c cs ih =>
    simp only [List.map_cons, List.flatten_cons, List.length_append, List.length_cons]
    have := escapeChar_length_pos c
    omega

/-- String-body parsing inverts `JSON.stringify` escaping: given enough fuel,
the parse of an escaped character sequence followed by a closing quote
returns exactly the original characters and the trailing input. -/
theorem parseStrAux_escape (cs : List Char) :
    ∀ (fuel : Nat) (tail : List Char), cs.length + 1 ≤ fuel →
      parseStrAux fuel ((cs.map escapeChar).flatten ++ '"' :: tail) =
        some (cs, tail) := by
  induction cs with
  | nil =>
    intro fuel tail hfuel
    obtain ⟨f, rfl⟩ : ∃ f, fuel = f + 1 := ⟨fuel - 1, by omega⟩
    simp [parseStrAux]
  | cons c cs ih =>
    intro fuel tail hfuel
    obtain ⟨f, rfl⟩ : ∃ f, fuel = f + 1 := ⟨fuel - 1, by omega⟩
    have hf : cs.length + 1 ≤ f := by
      simp only [List.length_cons] at hfuel
      omega
    simp only [List.map_cons, List.flatten_cons, List.append_assoc]
    by_cases h1 : c = '"'
    · subst h1
      simp [escapeChar, parseStrAux, escMap, ih f tail hf]
    · by_cases h2 : c = '\\'
      · subst h2
        simp [escapeChar, parseStrAux, escMap, ih f tail hf]
      · by_cases h3 : c = '\x08'
        · subst h3
          simp [escapeChar, parseStrAux, escMap, ih f tail hf]
        · by_cases h4 : c = '\x0c'
          · subst h4
            simp [escapeChar, parseStrAux, escMap, ih f tail hf]
          · by_cases h5 : c = '\n'
            · subst h5
              simp [escapeChar, parseStrAux, escMap, ih f tail hf]
            · by_cases h6 : c = '\r'
              · subst h6
                simp [escapeChar, parseStrAux, escMap, ih f tail hf]
              · by_cases h7 : c = '\t'
                · subst h7
                  simp [escapeChar, parseStrAux, escMap, ih f tail hf]
                · by_cases hctl : c.toNat < 0x20
                  · have hd1 : hexVal (hexDigitChar (c.toNat / 16)) =
                        some (c.toNat / 16) := hexVal_hexDigitChar (by omega)
                    have hd2 : hexVal (hexDigitChar (c.toNat % 16)) =
                        some (c.toNat % 16) :=
                      hexVal_hexDigitChar (Nat.mod_lt _ (by norm_num))
                    have h00 : hexVal '0' = some 0 := by decide
                    have hmod : 16 * (c.toNat / 16) + c.toNat % 16 = c.toNat :=
                      Nat.div_add_mod c.toNat 16
                    have hns1 : ¬ (0xD800 ≤ c.toNat / 16 * 16 + c.toNat % 16 ∧
                        c.toNat / 16 * 16 + c.toNat % 16 ≤ 0xDBFF) := by omega
                    have hns2 : ¬ (0xDC00 ≤ c.toNat / 16 * 16 + c.toNat % 16 ∧
                        c.toNat / 16 * 16 + c.toNat % 16 ≤ 0xDFFF) := by omega
                    have hchar : Char.ofNat (c.toNat / 16 * 16 + c.toNat % 16) = c := by
                      have heq : c.toNat / 16 * 16 + c.toNat % 16 = c.toNat := by omega
                      rw [heq, Char.ofNat_toNat]
                    simp [escapeChar, h1, h2, h3, h4, h5, h6, h7, hctl, parseStrAux,
                      hex4, h00, hd1, hd2, hns1, hns2, hchar, ih f tail hf]
                  · simp [escapeChar, h1, h2, h3, h4, h5, h6, h7, hctl, parseStrAux,
                      ih f tail hf]

/-- C9: the defensive serialize-then-deserialize guard is the identity on
every string `reviewComment` value — control characters and embedded quotes
included — hence idempotent. -/
theorem review_comment_roundtrip_id (s : String) :
    jsonRoundtrip (Json.str s) = some (Json.str s) := by
  have hquote : (jsonStringify (Json.str s)).data =
      '"' :: ((s.data.map escapeChar).flatten ++ '"' :: []) := by
    simp [jsonStringify, quoteStr]
  unfold jsonRoundtrip jsonParse
  rw [hquote]
  have hskip : skipWs ('"' :: ((s.data.map escapeChar).flatten ++ '"' :: [])) =
      '"' :: ((s.data.map escapeChar).flatten ++ '"' :: []) := by
    simp [skipWs, isJsonWs]
  rw [hskip]
  have hlen2 : 2 * ('"' :: ((s.data.map escapeChar).flatten ++ '"' :: [])).length + 2 =
      (2 * ('"' :: ((s.data.map escapeChar).flatten ++ '"' :: [])).length + 1) + 1 := by
    omega
  rw [hlen2]
  have hpv : ∀ (k : Nat) (rest : List Char), parseValue (k + 1) ('"' :: rest) =
      (parseStrAux (rest.length + 1) rest).map
        (fun p => (Json.str (String.mk p.1), p.2)) := fun _ _ => rfl
  rw [hpv]
  have hfuel : s.data.length + 1 ≤
      ((s.data.map escapeChar).flatten ++ '"' :: []).length + 1 := by
    have := length_le_flatten_escape s.data
    simp only [List.length_append, List.length_cons, List.length_nil]
    omega
  rw [parseStrAux_escape s.data _ [] hfuel]
  simp [skipWs]

end AiCodeReviewer
